import Mathlib

/-!
# Verification of the MLL Trade Violation Checker core

A shallow embedding, in Lean 4, of the computational core of `src/app.py`:
the MAE/MLL decision engine, the instrument tick economics, the multi-entry
paste parser and fill aggregation, and the news-archive merge/deduplication.
Numeric values carried as Python floats in the source are modelled as exact
rationals (`ℚ`); Python strings are modelled as `List Char`.
-/

namespace MLL

/-! ## Python string primitives

Models of the Python `str` operations the source uses: `str.strip()`,
`str.split('\t')`, `str.split()` (whitespace runs), `str.replace(',', '')`,
and the numeric constructors `int(s)` / `float(s)`.
-/

/-- Model of Python `str.lstrip()`: drop leading whitespace. -/
def pyLStrip (l : List Char) : List Char := l.dropWhile Char.isWhitespace

/-- Model of Python `str.rstrip()`: drop trailing whitespace. -/
def pyRStrip (l : List Char) : List Char :=
  (l.reverse.dropWhile Char.isWhitespace).reverse

/-- Model of Python `str.strip()`: drop leading and trailing whitespace. -/
def pyStrip (l : List Char) : List Char := pyRStrip (pyLStrip l)

/-- Model of Python `line.split('\t')`: split at every tab, keeping empty
fields (as Python does for a one-character separator). -/
def pyTabSplit (l : List Char) : List (List Char) := l.splitOn '\t'

/-- Model of Python `line.split()` with no argument: split on runs of
whitespace, discarding empty tokens. -/
def pySplitWS (l : List Char) : List (List Char) :=
  (l.splitOnP Char.isWhitespace).filter (fun t => !t.isEmpty)

/-- Model of `token.replace(',', '')`: remove every comma. -/
def pyDropCommas (l : List Char) : List Char := l.filter (fun c => c != ',')

/-- Value of a nonempty run of decimal digit characters. -/
def natOfDigits (l : List Char) : Nat :=
  l.foldl (fun n c => 10 * n + (c.toNat - 48)) 0

/-- Model of Python `int(s)` on string input: surrounding whitespace is
stripped, then an optional sign followed by a nonempty run of decimal
digits; anything else raises `ValueError`, modelled as `none`.
(Underscore digit grouping and non-ASCII digits are outside the inputs
the app handles and are not modelled.) -/
def pyInt (l : List Char) : Option Int :=
  match pyStrip l with
  | [] => none
  | '+' :: cs =>
      if cs ≠ [] ∧ cs.all Char.isDigit then some (natOfDigits cs : Int) else none
  | '-' :: cs =>
      if cs ≠ [] ∧ cs.all Char.isDigit then some (-(natOfDigits cs : Int)) else none
  | c :: cs =>
      if (c :: cs).all Char.isDigit then some (natOfDigits (c :: cs) : Int) else none

/-- Unsigned decimal literal for `float(s)`: digits with at most one point,
at least one digit overall (`"1"`, `"1."`, `".5"`, `"1.5"`). -/
def pyFloatCore (t : List Char) : Option ℚ :=
  match t.splitOn '.' with
  | [a] => if a ≠ [] ∧ a.all Char.isDigit then some (natOfDigits a : ℚ) else none
  | [a, b] =>
      if (a ≠ [] ∨ b ≠ []) ∧ a.all Char.isDigit ∧ b.all Char.isDigit then
        some ((natOfDigits a : ℚ) + (natOfDigits b : ℚ) / (10 : ℚ) ^ b.length)
      else none
  | _ => none

/-- Model of Python `float(s)` on string input: surrounding whitespace is
stripped, then an optional sign and a decimal literal; failure raises
`ValueError`, modelled as `none`. (Exponent forms, `inf` and `nan` never
occur in the broker data the app parses and are not modelled.) -/
def pyFloat (l : List Char) : Option ℚ :=
  match pyStrip l with
  | '+' :: cs => pyFloatCore cs
  | '-' :: cs => (pyFloatCore cs).map (fun q => -q)
  | t => pyFloatCore t

/-- Model of Python's built-in `abs()` on a number. -/
def pyAbs (x : ℚ) : ℚ := if x < 0 then -x else x

/-- Floor of a rational, written out computably. -/
def ratFloor (x : ℚ) : ℤ := x.num.fdiv (x.den : ℤ)

/-- Model of Python `round(x, 4)` on exact values: round `x * 10^4` to the
nearest integer, ties to even (banker's rounding), then scale back.
Binary floating-point representation error is out of scope; on the exact
decimal values the app handles this is the value Python produces. -/
def pyRound4 (x : ℚ) : ℚ :=
  let y := x * 10000
  let n := ratFloor y
  let r := y - (n : ℚ)
  (if r < 1/2 then (n : ℚ) else if 1/2 < r then ((n + 1 : ℤ) : ℚ)
   else if n % 2 = 0 then (n : ℚ) else ((n + 1 : ℤ) : ℚ)) / 10000

/-! ## Instrument registry (`src/app.py` lines 17–20, 72–79)

`INSTRUMENTS[name] = {"Tick Value": val_per_pt * tick_size,
"Ticks per Pt": 1 / tick_size if tick_size else 0}`.
-/

/-- One row of the instrument table: `Value per point` and `Tick Size`. -/
structure Instrument where
  valuePerPoint : ℚ
  tickSize : ℚ
deriving DecidableEq

/-- Line 77: `"Tick Value": val_per_pt * tick_size`. -/
def tickValue (i : Instrument) : ℚ := i.valuePerPoint * i.tickSize

/-- Line 77: `"Ticks per Pt": 1 / tick_size if tick_size else 0`;
Python truthiness makes the zero tick size map to 0. -/
def ticksPerPt (i : Instrument) : ℚ :=
  if i.tickSize = 0 then 0 else 1 / i.tickSize

/-- The NQ row of `DEFAULT_INSTRUMENTS` (line 18). -/
def NQ : Instrument := { valuePerPoint := 20, tickSize := 0.25 }

/-! ## MAE/MLL decision engine (`src/app.py` lines 324–330)

```
mae = - (abs(high_low - fill_price) * t_val * t_pt * abs(qty))
dist_2_mll = balance_before - mll
difference = dist_2_mll + mae
is_invalid = abs(mae) <= dist_2_mll
```
`is_invalid = true` renders as classification `Invalid`, `false` as
`ValidViolation` (lines 341–342).
-/

/-- Line 327: the maximum adverse excursion in currency units. -/
def mae (t_val t_pt fill_price high_low qty : ℚ) : ℚ :=
  -(pyAbs (high_low - fill_price) * t_val * t_pt * pyAbs qty)

/-- Line 328: remaining loss budget before the account floor. -/
def dist_2_mll (balance_before mll : ℚ) : ℚ := balance_before - mll

/-- Line 329: signed headroom. -/
def difference (d m : ℚ) : ℚ := d + m

/-- Line 330: the classification bit; `true` is `Invalid`. -/
def is_invalid (m d : ℚ) : Bool := decide (pyAbs m ≤ d)

/-! ## Multi-entry paste parser (`src/app.py` lines 195–260)

`multi_entry_dialog` walks the pasted text line by line.  Each stripped
nonempty line is tab-split; with 10 or more tab fields the quantity token
is field 7 (column H) and the price token field 9 (column J); otherwise
the line is whitespace-split and needs at least two tokens, quantity then
price.  Tokens lose commas, are stripped, and go through `int()` for the
quantity and `float()` for the price; any `ValueError`/`IndexError`
silently skips the line (`continue`).
-/

/-- Token selection of lines 220–238, applied to the stripped line:
the broker/Excel branch (`len(tab_parts) >= 10`) or the simple
two-token fallback (`len(space_parts) >= 2`). -/
def selTokens (t : List Char) : Option (List Char × List Char) :=
  let tab_parts := pyTabSplit t
  if 10 ≤ tab_parts.length then
    some (tab_parts.getD 7 [], tab_parts.getD 9 [])
  else
    let space_parts := pySplitWS t
    if 2 ≤ space_parts.length then
      some (space_parts.getD 0 [], space_parts.getD 1 [])
    else none

/-- Lines 227–228 and 235–236: `token.replace(',', '').strip()`. -/
def cleanTok (t : List Char) : List Char := pyStrip (pyDropCommas t)

/-- One pass of the loop body (lines 215–249) on a single line: the fill
it contributes, or `none` when the line is blank, incomplete, or fails
numeric conversion. -/
def parseLine (line : List Char) : Option (Int × ℚ) :=
  let t := pyStrip line
  if t.isEmpty then none
  else
    match selTokens t with
    | none => none
    | some (qs, ps) =>
        match pyInt (cleanTok qs), pyFloat (cleanTok ps) with
        | some q, some p => some (q, p)
        | _, _ => none

/-- The running totals `total_qty`, `total_value` updated by one line
(lines 244–245); a line that fails to parse leaves them unchanged. -/
def processLine (st : Int × ℚ) (line : List Char) : Int × ℚ :=
  match parseLine line with
  | some (q, p) => (st.1 + q, st.2 + (q : ℚ) * p)
  | none => st

/-- The totals over the whole pasted text (`lines` is
`raw_text.strip().split("\n")`). -/
def extractTotals (lines : List (List Char)) : Int × ℚ :=
  lines.foldl processLine (0, 0)

/-- The outcome of `Extract & Apply` (lines 251–260): when `total_qty` is
nonzero the dialog pushes `qty = total_qty` and
`fill_price = round(abs(total_value / total_qty), 4)` to the session
state; otherwise it surfaces an error and changes nothing (`none`). -/
def extractApply (lines : List (List Char)) : Option (Int × ℚ) :=
  let t := extractTotals lines
  if t.1 ≠ 0 then some (t.1, pyRound4 (pyAbs (t.2 / (t.1 : ℚ)))) else none

/-- The fills the dialog actually accepts, line by line. -/
def fillsOf (lines : List (List Char)) : List (Int × ℚ) :=
  lines.filterMap parseLine

/-- The sum `Σ quantity` over a fill list. -/
def netQ (fs : List (Int × ℚ)) : Int := (fs.map Prod.fst).sum

/-- The sum `Σ (quantity · price)` over a fill list. -/
def wsum (fs : List (Int × ℚ)) : ℚ := (fs.map (fun f => (f.1 : ℚ) * f.2)).sum

/-- The standalone helper `parse_pasted_data` (lines 169–178), which no
caller in the file reaches: tab-split only, requires at least 11 fields,
takes quantity (via `float`) from field 7 and price from field 10 with
commas removed, and keeps rows with nonzero quantity. -/
def parse_pasted_data (lines : List (List Char)) : List (ℚ × ℚ) :=
  lines.filterMap (fun line =>
    let cols := pyTabSplit line
    if 11 ≤ cols.length then
      match pyFloat (pyDropCommas (cols.getD 7 [])),
            pyFloat (pyDropCommas (cols.getD 10 [])) with
      | some q, some p => if q ≠ 0 then some (q, p) else none
      | _, _ => none
    else none)

/-! ## Spec-side variants of the line parser

Two definitions written from the specification's words rather than the
source, to be compared with `parseLine`: `parseLine_claimed` transcribes
the claimed layout rule (broker export iff at least 11 tab fields, price
from zero-based index 10, simple layout only for exactly two whitespace
tokens), and `classifyLine`/`parseLine_amended` state the amended rule as
an explicit tagged choice of layouts.
-/

/-- Written from the claim's words, not the source: broker-export layout
exactly when the tab-split field count is at least 11, quantity from
zero-based field 7 and price from zero-based field 10; otherwise a line
with exactly two whitespace tokens gives quantity then price. -/
def parseLine_claimed (line : List Char) : Option (Int × ℚ) :=
  let t := pyStrip line
  if t.isEmpty then none
  else
    let tab_parts := pyTabSplit t
    if 11 ≤ tab_parts.length then
      match pyInt (cleanTok (tab_parts.getD 7 [])),
            pyFloat (cleanTok (tab_parts.getD 10 [])) with
      | some q, some p => some (q, p)
      | _, _ => none
    else
      match pySplitWS t with
      | [qs, ps] =>
          match pyInt (cleanTok qs), pyFloat (cleanTok ps) with
          | some q, some p => some (q, p)
          | _, _ => none
      | _ => none

/-- The tagged layout choice of the amended claim. -/
inductive PasteLayout where
  | brokerExport (qTok pTok : List Char)
  | simplePair (qTok pTok : List Char)
  | unusable
deriving DecidableEq

/-- Amended layout selection: broker export exactly when the tab-split
field count is at least 10, with quantity token at zero-based field 7 and
price token at zero-based field 9; otherwise the first two whitespace
tokens when there are at least two; otherwise unusable. -/
def classifyLine (t : List Char) : PasteLayout :=
  let tabs := pyTabSplit t
  if 10 ≤ tabs.length then
    .brokerExport (tabs.getD 7 []) (tabs.getD 9 [])
  else
    match pySplitWS t with
    | qs :: ps :: _ => .simplePair qs ps
    | _ => .unusable

/-- The amended per-line rule, phrased through the tagged layout choice:
strip the line, classify it, strip commas and whitespace from the two
chosen tokens, and convert with `int` and `float`. -/
def parseLine_amended (line : List Char) : Option (Int × ℚ) :=
  let t := pyStrip line
  if t.isEmpty then none
  else
    match classifyLine t with
    | .brokerExport qs ps =>
        match pyInt (cleanTok qs), pyFloat (cleanTok ps) with
        | some q, some p => some (q, p)
        | _, _ => none
    | .simplePair qs ps =>
        match pyInt (cleanTok qs), pyFloat (cleanTok ps) with
        | some q, some p => some (q, p)
        | _, _ => none
    | .unusable => none

/-! ## News archive merge (`src/app.py` lines 113–162)

`sync_news_archive` concatenates the archive rows and the freshly fetched
live rows (archive first), after stripping every title and normalising
every timestamp to the string form `%Y-%m-%d %H:%M:%S`, drops rows with a
missing title or time, and deduplicates with
`drop_duplicates(subset=['title', 'Date_Only'], keep='first')` where
`Date_Only` is the calendar-date part of the timestamp.

The embedding keeps a timestamp as its two parts — calendar date and
time of day — so the `strftime`/`to_datetime` round trip through the
string form is the identity, and rows whose timestamp failed to parse
(dropped by `dropna`) are simply absent from the input lists.
-/

/-- One archive row: title plus the two components of `Event_Time`. -/
structure NewsRow where
  title : List Char
  eventDate : String
  eventTime : String
deriving DecidableEq

/-- Lines 124 and 130: `str.strip()` every title. -/
def normalizeRow (r : NewsRow) : NewsRow := { r with title := pyStrip r.title }

/-- Line 139–140: the dedup key `(title, Date_Only)`. -/
def rowKey (r : NewsRow) : List Char × String := (r.title, r.eventDate)

/-- Model of `drop_duplicates(..., keep='first')`: keep each element whose key has
not been seen yet, scanning left to right. -/
def dedupByAux (f : α → β) [DecidableEq β] : List β → List α → List α
  | _, [] => []
  | seen, x :: xs =>
      if f x ∈ seen then dedupByAux f seen xs
      else x :: dedupByAux f (f x :: seen) xs

/-- The dedup scan starting from nothing seen. -/
def dedupBy (f : α → β) [DecidableEq β] (l : List α) : List α :=
  dedupByAux f [] l

/-- The set of keys already seen after scanning a list. -/
def seenAfter (f : α → β) [DecidableEq β] : List β → List α → List β
  | seen, [] => seen
  | seen, x :: xs =>
      if f x ∈ seen then seenAfter f seen xs
      else seenAfter f (f x :: seen) xs

/-- Lines 122–153: when the live fetch is nonempty, clean both sides,
concatenate archive before live, dedup by `(title, Date_Only)` keeping
the first occurrence, and adopt the result as the new archive; when the
live fetch is empty the archive is left untouched. -/
def sync_merge (archive live : List NewsRow) : List NewsRow :=
  if live.isEmpty then archive
  else dedupBy rowKey (archive.map normalizeRow ++ live.map normalizeRow)

/-! ## Helper lemmas: the aggregation fold -/

theorem pyAbs_eq_abs (x : ℚ) : pyAbs x = |x| := by
  unfold pyAbs
  rcases lt_or_le x 0 with h | h
  · rw [if_pos h, abs_of_neg h]
  · rw [if_neg (not_lt.mpr h), abs_of_nonneg h]

theorem foldl_processLine (lines : List (List Char)) (a : Int) (b : ℚ) :
    lines.foldl processLine (a, b) =
      (a + netQ (fillsOf lines), b + wsum (fillsOf lines)) := by
  induction lines generalizing a b with
  | nil => simp [fillsOf, netQ, wsum]
  | cons l ls ih =>
      rw [List.foldl_cons]
      cases h : parseLine l with
      | none =>
          have hp : processLine (a, b) l = (a, b) := by simp [processLine, h]
          rw [hp, ih]
          simp [fillsOf, List.filterMap_cons, h]
      | some qp =>
          obtain ⟨q, p⟩ := qp
          have hp : processLine (a, b) l = (a + q, b + (q : ℚ) * p) := by
            simp [processLine, h]
          rw [hp, ih]
          simp only [fillsOf, List.filterMap_cons, h, netQ, wsum, List.map_cons,
            List.sum_cons, Prod.mk.injEq]
          constructor
          · ring
          · ring

theorem extractTotals_eq (lines : List (List Char)) :
    extractTotals lines = (netQ (fillsOf lines), wsum (fillsOf lines)) := by
  have h := foldl_processLine lines 0 0
  simpa [extractTotals] using h

theorem extractApply_eq (lines : List (List Char)) :
    extractApply lines =
      if netQ (fillsOf lines) = 0 then none
      else some (netQ (fillsOf lines),
        pyRound4 (pyAbs (wsum (fillsOf lines) / (netQ (fillsOf lines) : ℚ)))) := by
  unfold extractApply
  rw [extractTotals_eq]
  by_cases h : netQ (fillsOf lines) = 0
  · simp [h]
  · simp [h]

theorem ratFloor_intCast (m : ℤ) : ratFloor ((m : ℤ) : ℚ) = m := by
  unfold ratFloor
  rw [Rat.intCast_num, Rat.intCast_den]
  simp

/-! ## Helper lemmas: stripping is idempotent -/

theorem dropWhile_dropWhile (p : α → Bool) (l : List α) :
    (l.dropWhile p).dropWhile p = l.dropWhile p := by
  induction l with
  | nil => rfl
  | cons x xs ih =>
      cases h : p x with
      | true => simp [List.dropWhile_cons, h, ih]
      | false => simp [List.dropWhile_cons, h]

theorem exists_append_dropWhile (p : α → Bool) (l : List α) :
    ∃ s, s ++ l.dropWhile p = l := by
  induction l with
  | nil => exact ⟨[], rfl⟩
  | cons x xs ih =>
      cases h : p x with
      | true =>
          obtain ⟨s, hs⟩ := ih
          exact ⟨x :: s, by simp [List.dropWhile_cons, h, hs]⟩
      | false => exact ⟨[], by simp [List.dropWhile_cons, h]⟩

theorem length_dropWhile_le_self (p : α → Bool) (l : List α) :
    (l.dropWhile p).length ≤ l.length := by
  induction l with
  | nil => simp
  | cons x xs ih =>
      cases h : p x with
      | true =>
          rw [List.dropWhile_cons, if_pos (by rw [h])]
          exact le_trans ih (Nat.le_succ _)
      | false => rw [List.dropWhile_cons, if_neg (by rw [h]; simp)]

theorem dropWhile_of_append_eq_self (p : α → Bool) (n t : List α)
    (h : (n ++ t).dropWhile p = n ++ t) : n.dropWhile p = n := by
  cases n with
  | nil => rfl
  | cons x xs =>
      have hx : p x = false := by
        cases hx : p x with
        | false => rfl
        | true =>
            have hlen := length_dropWhile_le_self p (xs ++ t)
            simp [List.dropWhile_cons, hx] at h
            have h2 := congrArg List.length h
            simp only [List.length_cons] at h2
            omega
      simp [List.dropWhile_cons, hx]

theorem pyLStrip_pyRStrip (t : List Char)
    (h : pyLStrip t = t) : pyLStrip (pyRStrip t) = pyRStrip t := by
  obtain ⟨s, hs⟩ := exists_append_dropWhile Char.isWhitespace t.reverse
  have h2 : pyRStrip t ++ s.reverse = t := by
    have := congrArg List.reverse hs
    simpa [pyRStrip, List.reverse_append] using this
  unfold pyLStrip at h ⊢
  exact dropWhile_of_append_eq_self _ _ _ (by rw [h2]; exact h)

theorem pyRStrip_idem (t : List Char) : pyRStrip (pyRStrip t) = pyRStrip t := by
  unfold pyRStrip
  rw [List.reverse_reverse, dropWhile_dropWhile]

theorem pyStrip_idem (l : List Char) : pyStrip (pyStrip l) = pyStrip l := by
  unfold pyStrip
  have h1 : pyLStrip (pyLStrip l) = pyLStrip l := dropWhile_dropWhile _ l
  rw [pyLStrip_pyRStrip (pyLStrip l) h1, pyRStrip_idem]

theorem normalizeRow_idem (r : NewsRow) :
    normalizeRow (normalizeRow r) = normalizeRow r := by
  simp [normalizeRow, pyStrip_idem]

/-! ## Helper lemmas: `drop_duplicates` -/

theorem dedupByAux_append (f : α → β) [DecidableEq β] (seen : List β)
    (L M : List α) :
    dedupByAux f seen (L ++ M) =
      dedupByAux f seen L ++ dedupByAux f (seenAfter f seen L) M := by
  induction L generalizing seen with
  | nil => simp [dedupByAux, seenAfter]
  | cons x xs ih =>
      by_cases h : f x ∈ seen
      · simp [dedupByAux, seenAfter, h, ih]
      · simp [dedupByAux, seenAfter, h, ih]

theorem mem_seenAfter_of_mem_seen (f : α → β) [DecidableEq β] (L : List α)
    (seen : List β) (b : β) (h : b ∈ seen) : b ∈ seenAfter f seen L := by
  induction L generalizing seen with
  | nil => exact h
  | cons x xs ih =>
      by_cases hx : f x ∈ seen
      · simp only [seenAfter, if_pos hx]; exact ih seen h
      · simp only [seenAfter, if_neg hx]
        exact ih (f x :: seen) (List.mem_cons_of_mem _ h)

theorem mem_seenAfter_of_mem (f : α → β) [DecidableEq β] (L : List α)
    (seen : List β) (a : α) (h : a ∈ L) : f a ∈ seenAfter f seen L := by
  induction L generalizing seen with
  | nil => exact absurd h (List.not_mem_nil a)
  | cons x xs ih =>
      rcases List.mem_cons.mp h with rfl | hxs
      · by_cases hx : f a ∈ seen
        · simp only [seenAfter, if_pos hx]
          exact mem_seenAfter_of_mem_seen f xs seen _ hx
        · simp only [seenAfter, if_neg hx]
          exact mem_seenAfter_of_mem_seen f xs _ _ (List.mem_cons_self _ _)
      · by_cases hx : f x ∈ seen
        · simp only [seenAfter, if_pos hx]; exact ih seen hxs
        · simp only [seenAfter, if_neg hx]; exact ih (f x :: seen) hxs

theorem dedupByAux_eq_nil (f : α → β) [DecidableEq β] (seen : List β)
    (M : List α) (h : ∀ a ∈ M, f a ∈ seen) : dedupByAux f seen M = [] := by
  induction M with
  | nil => rfl
  | cons x xs ih =>
      have hx : f x ∈ seen := h x (List.mem_cons_self _ _)
      simp only [dedupByAux, if_pos hx]
      exact ih (fun a ha => h a (List.mem_cons_of_mem _ ha))

theorem mem_of_mem_dedupByAux (f : α → β) [DecidableEq β] {seen : List β}
    {l : List α} {a : α} (h : a ∈ dedupByAux f seen l) : a ∈ l := by
  induction l generalizing seen with
  | nil => exact absurd h (List.not_mem_nil a)
  | cons x xs ih =>
      by_cases hx : f x ∈ seen
      · simp only [dedupByAux, if_pos hx] at h
        exact List.mem_cons_of_mem _ (ih h)
      · simp only [dedupByAux, if_neg hx] at h
        rcases List.mem_cons.mp h with rfl | h2
        · exact List.mem_cons_self _ _
        · exact List.mem_cons_of_mem _ (ih h2)

theorem not_mem_seen_of_mem_dedupByAux (f : α → β) [DecidableEq β]
    {seen : List β} {l : List α} {a : α} (h : a ∈ dedupByAux f seen l) :
    f a ∉ seen := by
  induction l generalizing seen with
  | nil => exact absurd h (List.not_mem_nil a)
  | cons x xs ih =>
      by_cases hx : f x ∈ seen
      · simp only [dedupByAux, if_pos hx] at h
        exact ih h
      · simp only [dedupByAux, if_neg hx] at h
        rcases List.mem_cons.mp h with rfl | h2
        · exact hx
        · intro hc
          exact ih h2 (List.mem_cons_of_mem _ hc)

theorem pairwise_dedupByAux (f : α → β) [DecidableEq β] (seen : List β)
    (l : List α) :
    (dedupByAux f seen l).Pairwise (fun a b => f a ≠ f b) := by
  induction l generalizing seen with
  | nil => exact List.Pairwise.nil
  | cons x xs ih =>
      by_cases hx : f x ∈ seen
      · simp only [dedupByAux, if_pos hx]; exact ih seen
      · simp only [dedupByAux, if_neg hx]
        refine List.Pairwise.cons ?_ (ih (f x :: seen))
        intro b hb hc
        exact not_mem_seen_of_mem_dedupByAux f hb (by rw [← hc]; exact List.mem_cons_self _ _)

theorem dedupByAux_eq_self (f : α → β) [DecidableEq β] {seen : List β}
    {l : List α} (h1 : ∀ a ∈ l, f a ∉ seen)
    (h2 : l.Pairwise (fun a b => f a ≠ f b)) : dedupByAux f seen l = l := by
  induction l generalizing seen with
  | nil => rfl
  | cons x xs ih =>
      have hx : f x ∉ seen := h1 x (List.mem_cons_self _ _)
      simp only [dedupByAux, if_neg hx]
      have hpw := List.pairwise_cons.mp h2
      have h1' : ∀ a ∈ xs, f a ∉ f x :: seen := by
        intro a ha hc
        rcases List.mem_cons.mp hc with heq | hmem
        · exact (hpw.1 a ha) heq.symm
        · exact h1 a (List.mem_cons_of_mem _ ha) hmem
      rw [ih h1' hpw.2]

theorem key_covered (f : α → β) [DecidableEq β] (seen : List β) {l : List α}
    {a : α} (h : a ∈ l) :
    f a ∈ seen ∨ ∃ b ∈ dedupByAux f seen l, f b = f a := by
  induction l generalizing seen with
  | nil => exact absurd h (List.not_mem_nil a)
  | cons x xs ih =>
      by_cases hx : f x ∈ seen
      · simp only [dedupByAux, if_pos hx]
        rcases List.mem_cons.mp h with rfl | h2
        · exact Or.inl hx
        · exact ih seen h2
      · simp only [dedupByAux, if_neg hx]
        rcases List.mem_cons.mp h with rfl | h2
        · exact Or.inr ⟨a, List.mem_cons_self _ _, rfl⟩
        · rcases ih (f x :: seen) h2 with hmem | ⟨b, hb, hfb⟩
          · rcases List.mem_cons.mp hmem with heq | hmem2
            · exact Or.inr ⟨x, List.mem_cons_self _ _, heq.symm⟩
            · exact Or.inl hmem2
          · exact Or.inr ⟨b, List.mem_cons_of_mem _ hb, hfb⟩

/-- Re-merging the same live batch into the merged archive reproduces the
merged archive exactly. -/
theorem sync_merge_self (a l : List NewsRow) :
    sync_merge (sync_merge a l) l = sync_merge a l := by
  by_cases hl : l.isEmpty
  · simp [sync_merge, hl]
  · have hmerge : sync_merge a l
        = dedupBy rowKey (a.map normalizeRow ++ l.map normalizeRow) := by
      simp [sync_merge, hl]
    set A := a.map normalizeRow with hA
    set L := l.map normalizeRow with hL
    set D := dedupBy rowKey (A ++ L) with hD
    rw [hmerge]
    have hDnorm : D.map normalizeRow = D := by
      have hall : ∀ d ∈ D, normalizeRow d = d := by
        intro d hd
        have hd2 : d ∈ A ++ L := mem_of_mem_dedupByAux rowKey hd
        rcases List.mem_append.mp hd2 with hmem | hmem
        · obtain ⟨r, _, rfl⟩ := List.mem_map.mp hmem
          exact normalizeRow_idem r
        · obtain ⟨r, _, rfl⟩ := List.mem_map.mp hmem
          exact normalizeRow_idem r
      calc D.map normalizeRow = D.map id := List.map_congr_left hall
        _ = D := List.map_id D
    have hstep : sync_merge D l = dedupBy rowKey (D ++ L) := by
      simp only [sync_merge, hl, if_neg (by simp [hl] : ¬l.isEmpty = true), hDnorm, hL]
      simp
    rw [hstep]
    unfold dedupBy
    rw [dedupByAux_append]
    have hD_self : dedupByAux rowKey [] D = D := by
      apply dedupByAux_eq_self
      · simp
      · rw [hD]; exact pairwise_dedupByAux rowKey [] (A ++ L)
    have hL_nil : dedupByAux rowKey (seenAfter rowKey [] D) L = [] := by
      apply dedupByAux_eq_nil
      intro r hr
      have hr2 : r ∈ A ++ L := List.mem_append_right A hr
      rcases key_covered rowKey [] hr2 with hmem | ⟨b, hb, hfb⟩
      · exact absurd hmem (List.not_mem_nil _)
      · have hseen := mem_seenAfter_of_mem rowKey D [] b hb
        rw [hfb] at hseen
        exact hseen
    rw [hD_self, hL_nil, List.append_nil]

/-- Rounding `round(x, 4)` is the identity on integer values. -/
theorem pyRound4_intCast (n : ℤ) : pyRound4 ((n : ℤ) : ℚ) = (n : ℚ) := by
  simp only [pyRound4]
  have h1 : ((n : ℚ) * 10000) = ((n * 10000 : ℤ) : ℚ) := by push_cast; ring
  rw [h1, ratFloor_intCast, sub_self, if_pos (by norm_num : (0 : ℚ) < 1/2)]
  push_cast
  rw [mul_div_assoc]
  norm_num

/-! ## The claims -/

/-- C1: for strictly positive `tickValue`, `ticksPerPoint` and `quantity`,
the engine's `mae = -(|adverseExcursionPrice - fillPrice| * tickValue *
ticksPerPoint * |quantity|)` is never positive, and it is zero exactly when
the adverse excursion price equals the fill price. -/
theorem mae_nonpos_and_zero_iff (t_val t_pt fill_price high_low qty : ℚ)
    (h1 : 0 < t_val) (h2 : 0 < t_pt) (h3 : 0 < qty) :
    mae t_val t_pt fill_price high_low qty ≤ 0 ∧
      (mae t_val t_pt fill_price high_low qty = 0 ↔ high_low = fill_price) := by
  unfold mae
  rw [pyAbs_eq_abs, pyAbs_eq_abs]
  constructor
  · have h0 : 0 ≤ |high_low - fill_price| * t_val * t_pt * |qty| := by positivity
    linarith
  · rw [neg_eq_zero]
    constructor
    · intro h
      have hq : |qty| ≠ 0 := ne_of_gt (abs_pos.mpr (ne_of_gt h3))
      have habs : |high_low - fill_price| = 0 := by
        rcases mul_eq_zero.mp h with h' | h'
        · rcases mul_eq_zero.mp h' with h'' | h''
          · rcases mul_eq_zero.mp h'' with h3' | h3'
            · exact h3'
            · exact absurd h3' (ne_of_gt h1)
          · exact absurd h'' (ne_of_gt h2)
        · exact absurd h' hq
      exact sub_eq_zero.mp (abs_eq_zero.mp habs)
    · intro h
      rw [h, sub_self, abs_zero]
      ring

theorem mae_nonpos_and_zero_iff_witness :
    mae 5 4 2 7 3 ≤ 0 ∧ (mae 5 4 2 7 3 = 0 ↔ (7 : ℚ) = 2) :=
  mae_nonpos_and_zero_iff 5 4 2 7 3 (by norm_num) (by norm_num) (by norm_num)

/-- C2: the classification is `Invalid` exactly when
`|mae| ≤ distanceToMLL` with `distanceToMLL = balanceBefore - mll`, and at
exact equality it is `Invalid`. -/
theorem invalid_iff_within_distance
    (t_val t_pt fill_price high_low qty balance_before mll : ℚ) :
    (is_invalid (mae t_val t_pt fill_price high_low qty)
        (dist_2_mll balance_before mll) = true ↔
      |mae t_val t_pt fill_price high_low qty| ≤ balance_before - mll) ∧
    (|mae t_val t_pt fill_price high_low qty| = dist_2_mll balance_before mll →
      is_invalid (mae t_val t_pt fill_price high_low qty)
        (dist_2_mll balance_before mll) = true) := by
  constructor
  · simp [is_invalid, pyAbs_eq_abs, dist_2_mll]
  · intro h
    simp only [is_invalid, pyAbs_eq_abs, decide_eq_true_eq]
    rw [h]

theorem invalid_iff_within_distance_witness :
    is_invalid (mae 5 4 0 1 1) (dist_2_mll 20 0) = true :=
  (invalid_iff_within_distance 5 4 0 1 1 20 0).2 (by
    norm_num [mae, pyAbs_eq_abs, dist_2_mll, abs_of_nonpos])

/-- C3: with the NQ instrument (`valuePerPoint = 20`, `tickSize = 0.25`,
so `tickValue = 5` and `ticksPerPoint = 4`), `quantity = 2`,
`fillPrice = 24798.25`, `balanceBefore = 0` and `mll = -2000`: adverse
excursion 24848.00 yields `mae = -1990`, `distanceToMLL = 2000`,
`difference = 10`, classification `Invalid`; adverse excursion 24900.00
yields `mae = -4070`, `difference = -2070`, classification
`ValidViolation`. -/
theorem nq_example_end_to_end :
    tickValue NQ = 5 ∧ ticksPerPt NQ = 4 ∧
    mae (tickValue NQ) (ticksPerPt NQ) 24798.25 24848 2 = -1990 ∧
    dist_2_mll 0 (-2000) = 2000 ∧
    difference (dist_2_mll 0 (-2000))
      (mae (tickValue NQ) (ticksPerPt NQ) 24798.25 24848 2) = 10 ∧
    is_invalid (mae (tickValue NQ) (ticksPerPt NQ) 24798.25 24848 2)
      (dist_2_mll 0 (-2000)) = true ∧
    mae (tickValue NQ) (ticksPerPt NQ) 24798.25 24900 2 = -4070 ∧
    difference (dist_2_mll 0 (-2000))
      (mae (tickValue NQ) (ticksPerPt NQ) 24798.25 24900 2) = -2070 ∧
    is_invalid (mae (tickValue NQ) (ticksPerPt NQ) 24798.25 24900 2)
      (dist_2_mll 0 (-2000)) = false := by
  norm_num [mae, pyAbs, tickValue, ticksPerPt, NQ, dist_2_mll, difference,
    is_invalid]

/-- C4 counterexample: with a degenerate instrument (`tickValue = 0` and
`ticksPerPoint = 0`) the engine does give `mae = 0`, but with
`balanceBefore = -1` and `mll = 0` the classification is `ValidViolation`,
not `Invalid` — so the classification is not `Invalid` regardless of the
remaining inputs. -/
theorem degenerate_not_always_invalid :
    mae 0 0 0 5 1 = 0 ∧
    is_invalid (mae 0 0 0 5 1) (dist_2_mll (-1) 0) = false := by
  norm_num [mae, pyAbs, is_invalid, dist_2_mll]

/-- C4 amended: a degenerate instrument (`tickValue = 0` or
`ticksPerPoint = 0`) yields `mae = 0`, and the classification is then
`Invalid` exactly when `balanceBefore ≥ mll` (`distanceToMLL ≥ 0`) —
also when `balanceBefore < mll` it is `ValidViolation`. -/
theorem degenerate_mae_zero_invalid_iff
    (t_val t_pt fill_price high_low qty balance_before mll : ℚ)
    (h : t_val = 0 ∨ t_pt = 0) :
    mae t_val t_pt fill_price high_low qty = 0 ∧
    (is_invalid (mae t_val t_pt fill_price high_low qty)
        (dist_2_mll balance_before mll) = true ↔ mll ≤ balance_before) := by
  have hm : mae t_val t_pt fill_price high_low qty = 0 := by
    unfold mae
    rcases h with rfl | rfl
    · ring
    · ring
  refine ⟨hm, ?_⟩
  rw [hm]
  simp only [is_invalid, pyAbs_eq_abs, abs_zero, decide_eq_true_eq, dist_2_mll]
  exact sub_nonneg

theorem degenerate_mae_zero_invalid_iff_witness :
    mae 0 7 1 5 2 = 0 ∧
    (is_invalid (mae 0 7 1 5 2) (dist_2_mll 3 1) = true ↔ (1 : ℚ) ≤ 3) :=
  degenerate_mae_zero_invalid_iff 0 7 1 5 2 3 1 (Or.inl rfl)

/-- C5 counterexample: the fills `(+2, 10), (-1, 100)` have exact signed
weighted average `Σ(q·p)/Σq = -80`, but the dialog stores `(1, 80)`: the
price pushed to the session is `round(abs(avg), 4)`, not the signed
average. -/
theorem aggregate_price_not_signed :
    fillsOf [ "2 10".data, "-1 100".data] = [(2, 10), (-1, 100)] ∧
    wsum [(2, (10 : ℚ)), (-1, 100)] / (netQ [(2, (10 : ℚ)), (-1, 100)] : ℚ)
      = -80 ∧
    extractApply [ "2 10".data, "-1 100".data] = some (1, 80) ∧
    (80 : ℚ) ≠ -80 := by
  have hfills : fillsOf [ "2 10".data, "-1 100".data] = [(2, 10), (-1, 100)] := by
    decide
  refine ⟨hfills, by norm_num [wsum, netQ], ?_, by norm_num⟩
  rw [extractApply_eq, hfills]
  norm_num [netQ, wsum, pyAbs, pyRound4, ratFloor]

/-- C5 amended: for every accepted batch (nonzero net quantity) the dialog
stores `netQuantity = Σ quantity` exactly, and as price the absolute value
of the signed weighted average `Σ(q·p)/Σq`, rounded to four decimal
places — not the signed average itself. -/
theorem extractApply_rounded_abs_average (lines : List (List Char))
    (h : netQ (fillsOf lines) ≠ 0) :
    extractApply lines = some (netQ (fillsOf lines),
      pyRound4 (pyAbs (wsum (fillsOf lines) / (netQ (fillsOf lines) : ℚ)))) := by
  rw [extractApply_eq, if_neg h]

theorem extractApply_rounded_abs_average_witness :
    netQ (fillsOf [ "2 10".data, "-1 100".data]) ≠ 0 ∧
    extractApply [ "2 10".data, "-1 100".data] =
      some (netQ (fillsOf [ "2 10".data, "-1 100".data]),
        pyRound4 (pyAbs (wsum (fillsOf [ "2 10".data, "-1 100".data]) /
          (netQ (fillsOf [ "2 10".data, "-1 100".data]) : ℚ)))) :=
  ⟨by decide, extractApply_rounded_abs_average _ (by decide)⟩

/-- C6 counterexample: on an 11-tab-field line with `"200"` at zero-based
field 9 and `"999"` at field 10, the dialog takes the price from field 9,
not field 10 as claimed; and a line with exactly 10 tab fields is already
treated as broker layout, which the claimed rule (threshold 11, else
exactly two whitespace tokens) would discard. -/
theorem broker_layout_counterexample :
    parseLine "a\tb\tc\td\te\tf\tg\t2\ti\t200\t999".data = some (2, 200) ∧
    parseLine_claimed "a\tb\tc\td\te\tf\tg\t2\ti\t200\t999".data
      = some (2, 999) ∧
    parseLine "a\tb\tc\td\te\tf\tg\t3\ti\t200".data = some (3, 200) ∧
    parseLine_claimed "a\tb\tc\td\te\tf\tg\t3\ti\t200".data = none ∧
    (200 : ℚ) ≠ 999 :=
  ⟨by decide, by decide, by decide, by decide, by norm_num⟩

/-- C6 amended: the dialog's line parser selects the broker-export layout
exactly when the tab-split field count is at least 10, taking quantity
from zero-based field 7 and price from zero-based field 9; otherwise it
uses the first two whitespace tokens when there are at least two;
commas are stripped from the chosen tokens before parsing.  (`parseLine`
is the source's fallthrough; `parseLine_amended` restates it as the
explicit tagged layout choice `classifyLine`.) -/
theorem parseLine_eq_amended (line : List Char) :
    parseLine line = parseLine_amended line := by
  unfold parseLine parseLine_amended selTokens classifyLine
  by_cases hE : (pyStrip line).isEmpty
  · simp [hE]
  · simp only [hE, Bool.false_eq_true, if_false]
    by_cases h10 : 10 ≤ (pyTabSplit (pyStrip line)).length
    · simp [h10]
    · simp only [h10, if_false]
      cases hws : pySplitWS (pyStrip line) with
      | nil => simp
      | cons q rest =>
          cases rest with
          | nil => simp
          | cons p rest2 => simp [List.getD]

/-- C7: a pasted batch whose parsed fills sum to zero net quantity is
rejected: the dialog surfaces an error, computes no average (no division
happens) and leaves the trade inputs unchanged. -/
theorem zero_net_quantity_fails (lines : List (List Char))
    (h : netQ (fillsOf lines) = 0) : extractApply lines = none := by
  rw [extractApply_eq, if_pos h]

theorem zero_net_quantity_fails_witness :
    fillsOf [ "2 100".data, "-2 105".data] = [(2, 100), (-2, 105)] ∧
    netQ (fillsOf [ "2 100".data, "-2 105".data]) = 0 ∧
    extractApply [ "2 100".data, "-2 105".data] = none :=
  ⟨by decide, by decide, zero_net_quantity_fails _ (by decide)⟩

/-- C8 counterexample: the single row `"2 -100"` has non-positive price,
yet it is not discarded: the dialog aggregates it and pushes
`(2, 100)` (the absolute value of its average `-100`) instead of failing
with an empty-input error. -/
theorem nonpositive_price_contributes :
    parseLine "2 -100".data = some (2, -100) ∧
    extractApply [ "2 -100".data] = some (2, 100) := by
  constructor
  · decide
  · rw [extractApply_eq, show fillsOf [ "2 -100".data] = [(2, -100)] from by decide]
    norm_num [netQ, wsum, pyAbs, pyRound4, ratFloor]

/-- C8 amended: the dialog discards only rows whose tokens fail numeric
parsing; it applies no price-positivity filter — rows with zero or
negative price contribute to both sums — and it fails exactly when the
parsed quantities sum to zero, which subsumes the no-valid-rows case. -/
theorem extractApply_none_iff (lines : List (List Char)) :
    extractApply lines = none ↔ netQ (fillsOf lines) = 0 := by
  rw [extractApply_eq]
  by_cases h : netQ (fillsOf lines) = 0
  · simp [h]
  · simp [h]

/-- C9: archive merge is idempotent — merging the same live batch into an
already-merged archive again produces the same row count (in fact the very
same rows), because rows are deduplicated by the key (trimmed title,
calendar date). -/
theorem archive_merge_idempotent (archive live : List NewsRow) :
    (sync_merge (sync_merge archive live) live).length
      = (sync_merge archive live).length := by
  rw [sync_merge_self]

/-- C10: a line whose selected quantity token does not parse as an integer
literal is silently discarded — the quantity goes through `int()` while
only the price goes through `float()`, so a fractional quantity such as
`"1.5"` can never contribute to the aggregate. -/
theorem fractional_quantity_line_discarded (line qs ps : List Char)
    (hsel : selTokens (pyStrip line) = some (qs, ps))
    (hq : pyInt (cleanTok qs) = none) : parseLine line = none := by
  unfold parseLine
  by_cases hE : (pyStrip line).isEmpty
  · simp [hE]
  · simp only [hE, Bool.false_eq_true, if_false, hsel, hq]

theorem fractional_quantity_line_discarded_witness :
    selTokens (pyStrip "1.5 25381".data) = some ("1.5".data, "25381".data) ∧
    pyInt (cleanTok "1.5".data) = none ∧
    (pyFloat (cleanTok "1.5".data)).isSome = true ∧
    parseLine "1.5 25381".data = none :=
  ⟨by decide, by decide, by decide,
    fractional_quantity_line_discarded _ "1.5".data "25381".data
      (by decide) (by decide)⟩

end MLL
